import Mathlib

/-!
Verification of the sequential read benchmark (src/seq_read_bench.cpp).

The program is embedded shallowly:
* the per-run read loop (lines 60-70) becomes a fuel-indexed recursive
  function over an oracle modelling the POSIX read() call;
* the whole process (main and benchmark_chunk_size) becomes a pure
  function from an environment record (which I/O calls succeed, what
  read() returns, how long each run takes) to the list of observable
  output events (writes to the results fd, stdout and stderr) together
  with the process exit code;
* C doubles are modelled as exact rationals, C ints as unbounded
  integers (all quantities involved are far below any overflow bound).
-/

/-- FILE_SIZE constant, line 10 of the source: 64 MiB. -/
def FILE_SIZE : Int := 1024 * 1024 * 64

/-- SMALL_CHUNK constant, line 11. -/
def SMALL_CHUNK : Int := 100

/-- MEDIUM_CHUNK constant, line 12. -/
def MEDIUM_CHUNK : Int := 1024

/-- INCREMENTAL constant, line 13. -/
def INCREMENTAL : Int := 8192

/-- INCREMENTAL_START constant, line 14. -/
def INCREMENTAL_START : Int := 8192

/-- LARGEST_CHUNK constant, line 15. -/
def LARGEST_CHUNK : Int := 256 * 1024

/-- One iteration of the read loop, as observed from outside: the value of
total_read when the iteration starts, the byte count passed to read()
(computed on lines 64-65), and the value read() returned. -/
structure ReadCall where
  totalBefore : Int
  requested : Int
  returned : Int
deriving DecidableEq, Repr

/-- The request-size computation of lines 64-65:
to_read = (FILE_SIZE - total_read > chunk_size) ? chunk_size : (FILE_SIZE - total_read). -/
def readReq (chunk total : Int) : Int :=
  if FILE_SIZE - total > chunk then chunk else FILE_SIZE - total

/-- The while loop of lines 63-70. The oracle maps the index of a read()
call and the requested byte count to the value read() returns. The fuel
argument is an artifact of the embedding; readLoopAux_isSome shows that
FILE_SIZE.toNat + 1 units of fuel always suffice, so the fueled function
is total on the executions the program performs. Returns the final
total_read together with the trace of iterations. -/
def readLoopAux (chunk : Int) (oracle : Nat → Int → Int) :
    Nat → Nat → Int → Option (Int × List ReadCall)
  | 0, _, total =>
    if total < FILE_SIZE then none else some (total, [])
  | fuel + 1, k, total =>
    if total < FILE_SIZE then
      if oracle k (readReq chunk total) ≤ 0 then
        some (total, [⟨total, readReq chunk total, oracle k (readReq chunk total)⟩])
      else
        match readLoopAux chunk oracle fuel (k + 1) (total + oracle k (readReq chunk total)) with
        | none => none
        | some (fin, tr) => some (fin, ⟨total, readReq chunk total, oracle k (readReq chunk total)⟩ :: tr)
    else some (total, [])

/-- Fuel that always suffices for the read loop. -/
def FUEL : Nat := FILE_SIZE.toNat + 1

theorem readLoopAux_isSome (chunk : Int) (oracle : Nat → Int → Int) :
    ∀ (fuel : Nat) (k : Nat) (total : Int), FILE_SIZE ≤ total + fuel →
      (readLoopAux chunk oracle fuel k total).isSome := by
  intro fuel
  induction fuel with
  | zero =>
    intro k total h
    unfold readLoopAux
    rw [if_neg (by push_cast at h; omega)]
    rfl
  | succ fuel ih =>
    intro k total h
    unfold readLoopAux
    by_cases hlt : total < FILE_SIZE
    · rw [if_pos hlt]
      by_cases hbr : oracle k (readReq chunk total) ≤ 0
      · rw [if_pos hbr]
        rfl
      · rw [if_neg hbr]
        have hrec : FILE_SIZE ≤ (total + oracle k (readReq chunk total)) + fuel := by
          push_cast at h ⊢
          omega
        have hsome := ih (k + 1) (total + oracle k (readReq chunk total)) hrec
        rcases Option.isSome_iff_exists.mp hsome with ⟨p, hp⟩
        rcases p with ⟨fin, tr⟩
        rw [hp]
        rfl
    · rw [if_neg hlt]
      rfl

theorem readLoopAux_trace (chunk : Int) (oracle : Nat → Int → Int) :
    ∀ (fuel : Nat) (k : Nat) (total fin : Int) (tr : List ReadCall),
      readLoopAux chunk oracle fuel k total = some (fin, tr) →
      ∀ c ∈ tr, c.totalBefore < FILE_SIZE ∧ c.requested = readReq chunk c.totalBefore := by
  intro fuel
  induction fuel with
  | zero =>
    intro k total fin tr h
    unfold readLoopAux at h
    by_cases hlt : total < FILE_SIZE
    · rw [if_pos hlt] at h
      exact absurd h (by simp)
    · rw [if_neg hlt] at h
      simp only [Option.some.injEq, Prod.mk.injEq] at h
      obtain ⟨rfl, rfl⟩ := h
      simp
  | succ fuel ih =>
    intro k total fin tr h
    unfold readLoopAux at h
    by_cases hlt : total < FILE_SIZE
    · rw [if_pos hlt] at h
      by_cases hbr : oracle k (readReq chunk total) ≤ 0
      · rw [if_pos hbr] at h
        simp only [Option.some.injEq, Prod.mk.injEq] at h
        obtain ⟨rfl, rfl⟩ := h
        intro c hc
        rcases List.mem_singleton.mp hc with rfl
        exact ⟨hlt, rfl⟩
      · rw [if_neg hbr] at h
        rcases hrec : readLoopAux chunk oracle fuel (k + 1)
            (total + oracle k (readReq chunk total)) with _ | ⟨fin', tr'⟩
        · rw [hrec] at h
          exact absurd h (by simp)
        · rw [hrec] at h
          simp only [Option.some.injEq, Prod.mk.injEq] at h
          obtain ⟨rfl, rfl⟩ := h
          intro c hc
          rcases List.mem_cons.mp hc with rfl | hc'
          · exact ⟨hlt, rfl⟩
          · exact ih (k + 1) (total + oracle k (readReq chunk total)) fin' tr' hrec c hc'
    · rw [if_neg hlt] at h
      simp only [Option.some.injEq, Prod.mk.injEq] at h
      obtain ⟨rfl, rfl⟩ := h
      simp

theorem readReq_le (chunk total : Int) : readReq chunk total ≤ FILE_SIZE - total := by
  unfold readReq
  split <;> omega

theorem readReq_le_chunk (chunk total : Int) : readReq chunk total ≤ chunk := by
  unfold readReq
  split <;> omega

theorem readReq_pos (chunk total : Int) (hc : 0 < chunk) (ht : total < FILE_SIZE) :
    0 < readReq chunk total := by
  unfold readReq
  split <;> omega

theorem readLoopAux_spec (chunk : Int) (oracle : Nat → Int → Int)
    (hbound : ∀ k n, oracle k n ≤ n) :
    ∀ (fuel : Nat) (k : Nat) (total fin : Int) (tr : List ReadCall),
      0 ≤ total → total ≤ FILE_SIZE →
      readLoopAux chunk oracle fuel k total = some (fin, tr) →
      (0 ≤ fin ∧ fin ≤ FILE_SIZE) ∧
      (∀ c ∈ tr, 0 ≤ c.totalBefore) ∧
      (∀ c, tr.head? = some c → c.totalBefore = total) ∧
      List.Chain' (fun a b => 0 < a.returned ∧ b.totalBefore = a.totalBefore + a.returned) tr ∧
      (∀ c ∈ tr, ∃ j, c.returned = oracle j c.requested) ∧
      (fin = FILE_SIZE ∨ ∃ c ∈ tr, c.returned ≤ 0) := by
  intro fuel
  induction fuel with
  | zero =>
    intro k total fin tr h0 hle h
    unfold readLoopAux at h
    by_cases hlt : total < FILE_SIZE
    · rw [if_pos hlt] at h
      exact absurd h (by simp)
    · rw [if_neg hlt] at h
      simp only [Option.some.injEq, Prod.mk.injEq] at h
      obtain ⟨rfl, rfl⟩ := h
      refine ⟨⟨h0, hle⟩, by simp, by simp, by simp, by simp, Or.inl (by omega)⟩
  | succ fuel ih =>
    intro k total fin tr h0 hle h
    unfold readLoopAux at h
    by_cases hlt : total < FILE_SIZE
    · rw [if_pos hlt] at h
      by_cases hbr : oracle k (readReq chunk total) ≤ 0
      · rw [if_pos hbr] at h
        simp only [Option.some.injEq, Prod.mk.injEq] at h
        obtain ⟨rfl, rfl⟩ := h
        refine ⟨⟨h0, hle⟩, ?_, ?_, ?_, ?_, Or.inr ?_⟩
        · intro c hc
          rcases List.mem_singleton.mp hc with rfl
          exact h0
        · intro c hc
          simp only [List.head?_cons, Option.some.injEq] at hc
          subst hc
          rfl
        · simp
        · intro c hc
          rcases List.mem_singleton.mp hc with rfl
          exact ⟨k, rfl⟩
        · exact ⟨_, List.mem_singleton.mpr rfl, hbr⟩
      · rw [if_neg hbr] at h
        have hbr' : 0 < oracle k (readReq chunk total) := by omega
        have hub : oracle k (readReq chunk total) ≤ readReq chunk total := hbound k _
        have htot' : total + oracle k (readReq chunk total) ≤ FILE_SIZE := by
          have := readReq_le chunk total
          omega
        rcases hrec : readLoopAux chunk oracle fuel (k + 1)
            (total + oracle k (readReq chunk total)) with _ | ⟨fin', tr'⟩
        · rw [hrec] at h
          exact absurd h (by simp)
        · rw [hrec] at h
          simp only [Option.some.injEq, Prod.mk.injEq] at h
          obtain ⟨rfl, rfl⟩ := h
          obtain ⟨hfin, hmem0, hhead, hchain, hform, hstop⟩ :=
            ih (k + 1) (total + oracle k (readReq chunk total)) fin' tr' (by omega) htot' hrec
          refine ⟨hfin, ?_, ?_, ?_, ?_, ?_⟩
          · intro c hc
            rcases List.mem_cons.mp hc with rfl | hc'
            · exact h0
            · exact hmem0 c hc'
          · intro c hc
            simp only [List.head?_cons, Option.some.injEq] at hc
            subst hc
            rfl
          · rw [List.chain'_cons']
            refine ⟨?_, hchain⟩
            intro y hy
            exact ⟨hbr', hhead y hy⟩
          · intro c hc
            rcases List.mem_cons.mp hc with rfl | hc'
            · exact ⟨k, rfl⟩
            · exact hform c hc'
          · rcases hstop with hfs | ⟨c, hc, hcle⟩
            · exact Or.inl hfs
            · exact Or.inr ⟨c, List.mem_cons_of_mem _ hc, hcle⟩
    · rw [if_neg hlt] at h
      simp only [Option.some.injEq, Prod.mk.injEq] at h
      obtain ⟨rfl, rfl⟩ := h
      refine ⟨⟨h0, hle⟩, by simp, by simp, by simp, by simp, Or.inl (by omega)⟩

theorem readReq_eq_min (chunk total : Int) :
    readReq chunk total = min chunk (FILE_SIZE - total) := by
  unfold readReq
  rw [min_def]
  split <;> split <;> omega

theorem FUEL_big : FILE_SIZE ≤ (0 : Int) + (FUEL : Nat) := by decide

/-- C1: in every run, the read loop consumes the file sequentially (each
iteration starts where the previous one ended), each iteration requests
exactly min(chunkSize, totalSize - bytesSoFar) bytes, every iteration
starts with total_read < FILE_SIZE, and the loop stops with either
total_read = FILE_SIZE or a read() return that is zero or negative. -/
theorem c1_read_loop_requests (chunk : Int) (oracle : Nat → Int → Int)
    (hchunk : 0 < chunk) (hbound : ∀ k n, oracle k n ≤ n) :
    ∃ fin tr, readLoopAux chunk oracle FUEL 0 0 = some (fin, tr) ∧
      (∀ c ∈ tr, c.totalBefore < FILE_SIZE ∧
        c.requested = min chunk (FILE_SIZE - c.totalBefore)) ∧
      (∀ c, tr.head? = some c → c.totalBefore = 0) ∧
      List.Chain' (fun a b => 0 < a.returned ∧
        b.totalBefore = a.totalBefore + a.returned) tr ∧
      (fin = FILE_SIZE ∨ ∃ c ∈ tr, c.returned ≤ 0) := by
  have hsome := readLoopAux_isSome chunk oracle FUEL 0 0 FUEL_big
  rcases Option.isSome_iff_exists.mp hsome with ⟨⟨fin, tr⟩, hp⟩
  obtain ⟨_, _, hhead, hchain, _, hstop⟩ :=
    readLoopAux_spec chunk oracle hbound FUEL 0 0 fin tr (by omega) (by decide) hp
  refine ⟨fin, tr, hp, ?_, hhead, hchain, hstop⟩
  intro c hc
  obtain ⟨h1, h2⟩ := readLoopAux_trace chunk oracle FUEL 0 0 fin tr hp c hc
  exact ⟨h1, by rw [h2, readReq_eq_min]⟩

/-- C8: throughout every run's read loop the invariant
0 ≤ total_read ≤ FILE_SIZE holds, and every request size satisfies
0 < to_read ≤ chunk_size (given chunk_size > 0 and read() never
returning more than was requested). -/
theorem c8_loop_invariant (chunk : Int) (oracle : Nat → Int → Int)
    (hchunk : 0 < chunk) (hbound : ∀ k n, oracle k n ≤ n) :
    ∃ fin tr, readLoopAux chunk oracle FUEL 0 0 = some (fin, tr) ∧
      (0 ≤ fin ∧ fin ≤ FILE_SIZE) ∧
      ∀ c ∈ tr, (0 ≤ c.totalBefore ∧ c.totalBefore ≤ FILE_SIZE) ∧
        (0 < c.requested ∧ c.requested ≤ chunk) := by
  have hsome := readLoopAux_isSome chunk oracle FUEL 0 0 FUEL_big
  rcases Option.isSome_iff_exists.mp hsome with ⟨⟨fin, tr⟩, hp⟩
  obtain ⟨hfin, hmem0, _, _, _, _⟩ :=
    readLoopAux_spec chunk oracle hbound FUEL 0 0 fin tr (by omega) (by decide) hp
  refine ⟨fin, tr, hp, hfin, ?_⟩
  intro c hc
  obtain ⟨h1, h2⟩ := readLoopAux_trace chunk oracle FUEL 0 0 fin tr hp c hc
  refine ⟨⟨hmem0 c hc, by omega⟩, ?_, ?_⟩
  · rw [h2]
    exact readReq_pos chunk c.totalBefore hchunk h1
  · rw [h2]
    exact readReq_le_chunk chunk c.totalBefore

/-- C10: for every positive chunk size the per-run read loop terminates:
FILE_SIZE + 1 units of fuel always suffice, because every iteration either
exits the loop (read() returned zero or negative, or total_read reached
FILE_SIZE) or strictly increases total_read. -/
theorem c10_loop_terminates (chunk : Int) (oracle : Nat → Int → Int)
    (hchunk : 0 < chunk) (hbound : ∀ k n, oracle k n ≤ n) :
    (readLoopAux chunk oracle FUEL 0 0).isSome = true :=
  readLoopAux_isSome chunk oracle FUEL 0 0 FUEL_big

/-- An environment in which every read() call reports end-of-file at once:
any request is answered with 0 bytes. -/
def eofOracle : Nat → Int → Int := fun _ n => min n 0

theorem c1_read_loop_requests_witness :
    (0 < SMALL_CHUNK) ∧ (∀ k n, eofOracle k n ≤ n) ∧
    (∃ fin tr, readLoopAux SMALL_CHUNK eofOracle FUEL 0 0 = some (fin, tr) ∧
      (∀ c ∈ tr, c.totalBefore < FILE_SIZE ∧
        c.requested = min SMALL_CHUNK (FILE_SIZE - c.totalBefore)) ∧
      (∀ c, tr.head? = some c → c.totalBefore = 0) ∧
      List.Chain' (fun a b => 0 < a.returned ∧
        b.totalBefore = a.totalBefore + a.returned) tr ∧
      (fin = FILE_SIZE ∨ ∃ c ∈ tr, c.returned ≤ 0)) :=
  ⟨by decide, fun k n => min_le_left n 0,
    c1_read_loop_requests SMALL_CHUNK eofOracle (by decide) (fun k n => min_le_left n 0)⟩

theorem c8_loop_invariant_witness :
    (0 < MEDIUM_CHUNK) ∧ (∀ k n, eofOracle k n ≤ n) ∧
    (∃ fin tr, readLoopAux MEDIUM_CHUNK eofOracle FUEL 0 0 = some (fin, tr) ∧
      (0 ≤ fin ∧ fin ≤ FILE_SIZE) ∧
      ∀ c ∈ tr, (0 ≤ c.totalBefore ∧ c.totalBefore ≤ FILE_SIZE) ∧
        (0 < c.requested ∧ c.requested ≤ MEDIUM_CHUNK)) :=
  ⟨by decide, fun k n => min_le_left n 0,
    c8_loop_invariant MEDIUM_CHUNK eofOracle (by decide) (fun k n => min_le_left n 0)⟩

theorem c10_loop_terminates_witness :
    (0 < INCREMENTAL_START) ∧ (∀ k n, eofOracle k n ≤ n) ∧
    (readLoopAux INCREMENTAL_START eofOracle FUEL 0 0).isSome = true :=
  ⟨by decide, fun k n => min_le_left n 0,
    c10_loop_terminates INCREMENTAL_START eofOracle (by decide) (fun k n => min_le_left n 0)⟩

/-- The three output channels the process writes to: the results-file
descriptor (data_fd, benchmark_results.csv), standard output and standard
error. -/
inductive Chan
  | dataFd
  | stdout
  | stderr
deriving DecidableEq, Repr

/-- The BenchmarkResult struct of lines 17-22. The two double fields are
modelled as exact rationals. -/
structure BenchmarkResult where
  chunk_size : Int
  run_number : Int
  read_time_ms : ℚ
  throughput_mbps : ℚ
deriving DecidableEq, Repr

/-- One line of output: the fixed CSV header (line 110), one formatted
CSV row (lines 25-30), or a progress/diagnostic message. -/
inductive Line
  | header
  | row (r : BenchmarkResult)
  | msg (s : String)
deriving DecidableEq, Repr

/-- One observable write: a channel and the line written to it. -/
structure Ev where
  chan : Chan
  line : Line
deriving DecidableEq, Repr

/-- The environment of one process invocation: which I/O calls succeed,
what each read() call returns, and the duration the clock measures for
each run. read is indexed by chunk size, run number, read-call index and
requested byte count; the other oracles by the call site they serve. -/
structure World where
  openResultsOk : Bool
  writeHeaderOk : Bool
  mallocOk : Int → Bool
  openTestOk : Int → Nat → Bool
  read : Int → Nat → Nat → Int → Int
  closeTestOk : Int → Nat → Bool
  duration : Int → Nat → ℚ
  writeRowOk : Int → Nat → Bool
  closeResultsOk : Bool

/-- Line 90: read_time_ms = start_stop_diff.count() * 1000.0, where the
argument is the elapsed time in seconds. -/
def read_time_ms (t : ℚ) : ℚ := t * 1000

/-- Line 91: throughput_mbps = (FILE_SIZE / (1024.0 * 1024.0)) / start_stop_diff.count(). -/
def throughput_mbps (t : ℚ) : ℚ := ((FILE_SIZE : ℚ) / (1024 * 1024)) / t

/-- The BenchmarkResult built on line 94 for chunk size chunk and loop
index run (run_number is run + 1). -/
def mkResult (w : World) (chunk : Int) (run : Nat) : BenchmarkResult :=
  ⟨chunk, (run : Int) + 1, read_time_ms (w.duration chunk run),
    throughput_mbps (w.duration chunk run)⟩

/-- Final value of total_read for the run of chunk size chunk and loop
index run (the read loop of lines 60-70). -/
def loopFin (w : World) (chunk : Int) (run : Nat) : Int :=
  ((readLoopAux chunk (w.read chunk run) FUEL 0 0).getD (0, [])).1

/-- write_result, lines 24-37: format the row, write it to data_fd, and
exit with status 1 when the write comes up short. The Bool argument is
whether the write() succeeds in full. -/
def write_result (ok : Bool) (result : BenchmarkResult) : List Ev × Bool :=
  if ok then ([⟨Chan.dataFd, Line.row result⟩], true)
  else ([⟨Chan.dataFd, Line.row result⟩,
         ⟨Chan.stderr, Line.msg "Error writing result to file"⟩], false)

/-- One iteration of the run loop, lines 46-96: open the test file, time
the read loop, close the test file, verify that the whole file was read,
and write one CSV row. Returns the events emitted and whether the run
completed (false means the process exits with status 1). -/
def runOnce (w : World) (chunk : Int) (run : Nat) : List Ev × Bool :=
  if w.openTestOk chunk run then
    if w.closeTestOk chunk run then
      if loopFin w chunk run = FILE_SIZE then
        ([⟨Chan.stdout, Line.msg "File descriptor is %d\n"⟩,
          ⟨Chan.stdout, Line.msg ("Read " ++ toString (loopFin w chunk run) ++ "bytes\n")⟩] ++
          (write_result (w.writeRowOk chunk run) (mkResult w chunk run)).1,
         (write_result (w.writeRowOk chunk run) (mkResult w chunk run)).2)
      else
        ([⟨Chan.stdout, Line.msg "File descriptor is %d\n"⟩,
          ⟨Chan.stdout, Line.msg ("Read " ++ toString (loopFin w chunk run) ++ "bytes\n")⟩,
          ⟨Chan.stderr, Line.msg "Could not read entire file!"⟩], false)
    else
      ([⟨Chan.stdout, Line.msg "File descriptor is %d\n"⟩,
        ⟨Chan.stderr, Line.msg "Error closing test file"⟩], false)
  else ([⟨Chan.stderr, Line.msg "Could not open test file"⟩], false)

/-- The run loop of benchmark_chunk_size (line 46), over the list of
remaining loop indices. An exit() inside a run stops everything. -/
def benchLoop (w : World) (chunk : Int) : List Nat → List Ev × Bool
  | [] => ([], true)
  | r :: rs =>
    if (runOnce w chunk r).2 then
      ((runOnce w chunk r).1 ++ (benchLoop w chunk rs).1, (benchLoop w chunk rs).2)
    else ((runOnce w chunk r).1, false)

/-- benchmark_chunk_size, lines 39-99: allocate the chunk buffer and run
30 timed runs. -/
def benchmark_chunk_size (w : World) (chunk : Int) : List Ev × Bool :=
  if w.mallocOk chunk then benchLoop w chunk (List.range 30)
  else ([⟨Chan.stderr, Line.msg "Could not allocate chunk buffer!"⟩], false)

/-- The incremental sweep of lines 130-135: chunk sizes 8 KiB, 16 KiB,
..., 256 KiB in 8 KiB steps. -/
def incrementalChunks : List Int :=
  (List.range 32).map (fun i => INCREMENTAL_START + (i : Int) * INCREMENTAL)

/-- The for loop of lines 130-135, over the remaining chunk sizes. -/
def benchSweep (w : World) : List Int → List Ev × Bool
  | [] => ([], true)
  | c :: cs =>
    if (benchmark_chunk_size w c).2 then
      ((benchmark_chunk_size w c).1 ++ (benchSweep w cs).1, (benchSweep w cs).2)
    else ((benchmark_chunk_size w c).1, false)

/-- All chunk sizes benchmarked by one invocation of main. -/
def sweepChunks : List Int := SMALL_CHUNK :: MEDIUM_CHUNK :: incrementalChunks

/-- main, lines 101-145: open benchmark_results.csv (O_WRONLY, O_CREAT,
O_TRUNC), write the CSV header, run the three benchmark phases, close the
results file. Returns all emitted events and the process exit code. -/
def mainModel (w : World) : List Ev × Int :=
  if w.openResultsOk then
    if w.writeHeaderOk then
      if (benchmark_chunk_size w SMALL_CHUNK).2 then
        if (benchmark_chunk_size w MEDIUM_CHUNK).2 then
          if (benchSweep w incrementalChunks).2 then
            if w.closeResultsOk then
              (⟨Chan.dataFd, Line.header⟩ ::
                ⟨Chan.stdout, Line.msg "Starting sequential read benchmark...\n"⟩ ::
                ⟨Chan.stdout, Line.msg "Testing small reads (100 bytes)\n"⟩ ::
                (benchmark_chunk_size w SMALL_CHUNK).1 ++
                ⟨Chan.stdout, Line.msg "Testing medium reads (1K)\n"⟩ ::
                (benchmark_chunk_size w MEDIUM_CHUNK).1 ++
                ⟨Chan.stdout, Line.msg "Testing incremental reads of 8KiB starting from 8KiB up to 256KiB\n"⟩ ::
                (benchSweep w incrementalChunks).1 ++
                [⟨Chan.stdout, Line.msg "Benchmark completed. Results saved to benchmark_results.csv\n"⟩], 0)
            else
              (⟨Chan.dataFd, Line.header⟩ ::
                ⟨Chan.stdout, Line.msg "Starting sequential read benchmark...\n"⟩ ::
                ⟨Chan.stdout, Line.msg "Testing small reads (100 bytes)\n"⟩ ::
                (benchmark_chunk_size w SMALL_CHUNK).1 ++
                ⟨Chan.stdout, Line.msg "Testing medium reads (1K)\n"⟩ ::
                (benchmark_chunk_size w MEDIUM_CHUNK).1 ++
                ⟨Chan.stdout, Line.msg "Testing incremental reads of 8KiB starting from 8KiB up to 256KiB\n"⟩ ::
                (benchSweep w incrementalChunks).1 ++
                [⟨Chan.stdout, Line.msg "Error closing output file\n"⟩], 1)
          else
            (⟨Chan.dataFd, Line.header⟩ ::
              ⟨Chan.stdout, Line.msg "Starting sequential read benchmark...\n"⟩ ::
              ⟨Chan.stdout, Line.msg "Testing small reads (100 bytes)\n"⟩ ::
              (benchmark_chunk_size w SMALL_CHUNK).1 ++
              ⟨Chan.stdout, Line.msg "Testing medium reads (1K)\n"⟩ ::
              (benchmark_chunk_size w MEDIUM_CHUNK).1 ++
              ⟨Chan.stdout, Line.msg "Testing incremental reads of 8KiB starting from 8KiB up to 256KiB\n"⟩ ::
              (benchSweep w incrementalChunks).1, 1)
        else
          (⟨Chan.dataFd, Line.header⟩ ::
            ⟨Chan.stdout, Line.msg "Starting sequential read benchmark...\n"⟩ ::
            ⟨Chan.stdout, Line.msg "Testing small reads (100 bytes)\n"⟩ ::
            (benchmark_chunk_size w SMALL_CHUNK).1 ++
            ⟨Chan.stdout, Line.msg "Testing medium reads (1K)\n"⟩ ::
            (benchmark_chunk_size w MEDIUM_CHUNK).1, 1)
      else
        (⟨Chan.dataFd, Line.header⟩ ::
          ⟨Chan.stdout, Line.msg "Starting sequential read benchmark...\n"⟩ ::
          ⟨Chan.stdout, Line.msg "Testing small reads (100 bytes)\n"⟩ ::
          (benchmark_chunk_size w SMALL_CHUNK).1, 1)
    else
      ([⟨Chan.dataFd, Line.header⟩,
        ⟨Chan.stderr, Line.msg "Error writing CSV header"⟩], 1)
  else ([⟨Chan.stderr, Line.msg "Could not open output file"⟩], 1)

/-- The CSV rows among a list of events: lines written to data_fd that
are rows (the program's payload writes, as opposed to the header). -/
def rowEvents (evs : List Ev) : List BenchmarkResult :=
  evs.filterMap (fun e =>
    match e with
    | ⟨Chan.dataFd, Line.row r⟩ => some r
    | _ => none)

/-- Everything written to data_fd, in order: the contents of
benchmark_results.csv after the process exits (the file was opened with
O_TRUNC, so it holds exactly these lines). -/
def dataLines (evs : List Ev) : List Line :=
  evs.filterMap (fun e => if e.chan = Chan.dataFd then some e.line else none)

theorem rowEvents_append (a b : List Ev) :
    rowEvents (a ++ b) = rowEvents a ++ rowEvents b :=
  List.filterMap_append a b _

theorem dataLines_append (a b : List Ev) :
    dataLines (a ++ b) = dataLines a ++ dataLines b :=
  List.filterMap_append a b _

theorem runOnce_ok_events (w : World) (c : Int) (r : Nat)
    (h : (runOnce w c r).2 = true) :
    runOnce w c r =
      ([⟨Chan.stdout, Line.msg "File descriptor is %d\n"⟩,
        ⟨Chan.stdout, Line.msg ("Read " ++ toString (loopFin w c r) ++ "bytes\n")⟩,
        ⟨Chan.dataFd, Line.row (mkResult w c r)⟩], true) := by
  unfold runOnce write_result at h ⊢
  split_ifs at h ⊢ <;> simp_all

theorem runOnce_ok_of (w : World) (c : Int) (r : Nat)
    (h1 : w.openTestOk c r = true) (h2 : w.closeTestOk c r = true)
    (h3 : loopFin w c r = FILE_SIZE) (h4 : w.writeRowOk c r = true) :
    (runOnce w c r).2 = true := by
  simp [runOnce, write_result, h1, h2, h3, h4]

theorem benchLoop_ok (w : World) (c : Int) :
    ∀ rs : List Nat, (benchLoop w c rs).2 = true →
      rowEvents (benchLoop w c rs).1 = rs.map (mkResult w c) ∧
      dataLines (benchLoop w c rs).1 = rs.map (fun r => Line.row (mkResult w c r)) ∧
      ∀ e ∈ (benchLoop w c rs).1, e.chan ≠ Chan.stderr := by
  intro rs
  induction rs with
  | nil =>
    intro _
    refine ⟨rfl, rfl, ?_⟩
    intro e he
    simp [benchLoop] at he
  | cons r rs ih =>
    intro h
    by_cases hr : (runOnce w c r).2 = true
    · have hrest : (benchLoop w c rs).2 = true := by
        simp only [benchLoop, hr, if_true] at h
        exact h
      obtain ⟨ih1, ih2, ih3⟩ := ih hrest
      have he := runOnce_ok_events w c r hr
      have hev : (benchLoop w c (r :: rs)).1 = (runOnce w c r).1 ++ (benchLoop w c rs).1 := by
        simp only [benchLoop, hr, if_true]
      refine ⟨?_, ?_, ?_⟩
      · rw [hev, rowEvents_append, ih1, he]
        simp [rowEvents]
      · rw [hev, dataLines_append, ih2, he]
        simp [dataLines]
      · intro e hmem
        rw [hev] at hmem
        rcases List.mem_append.mp hmem with hm | hm
        · rw [he] at hm
          simp only [List.mem_cons, List.not_mem_nil, or_false] at hm
          rcases hm with rfl | rfl | rfl <;> simp
        · exact ih3 e hm
    · simp only [benchLoop] at h
      rw [if_neg hr] at h
      exact absurd h (by simp)

theorem benchLoop_ok_forall (w : World) (c : Int) :
    ∀ rs : List Nat, (benchLoop w c rs).2 = true →
      ∀ r ∈ rs, (runOnce w c r).2 = true := by
  intro rs
  induction rs with
  | nil =>
    intro _ r hr
    cases hr
  | cons r rs ih =>
    intro h r' hr'
    by_cases hr : (runOnce w c r).2 = true
    · have hrest : (benchLoop w c rs).2 = true := by
        simp only [benchLoop, hr, if_true] at h
        exact h
      rcases List.mem_cons.mp hr' with rfl | hm
      · exact hr
      · exact ih hrest r' hm
    · simp only [benchLoop] at h
      rw [if_neg hr] at h
      exact absurd h (by simp)

theorem benchLoop_ok_of (w : World) (c : Int) :
    ∀ rs : List Nat, (∀ r ∈ rs, (runOnce w c r).2 = true) →
      (benchLoop w c rs).2 = true := by
  intro rs
  induction rs with
  | nil => intro _; rfl
  | cons r rs ih =>
    intro h
    have hr := h r (List.mem_cons_self r rs)
    simp only [benchLoop, hr, if_true]
    exact ih (fun r' hr' => h r' (List.mem_cons_of_mem r hr'))

theorem benchmark_ok (w : World) (c : Int)
    (h : (benchmark_chunk_size w c).2 = true) :
    rowEvents (benchmark_chunk_size w c).1 = (List.range 30).map (mkResult w c) ∧
    dataLines (benchmark_chunk_size w c).1 =
      (List.range 30).map (fun r => Line.row (mkResult w c r)) ∧
    ∀ e ∈ (benchmark_chunk_size w c).1, e.chan ≠ Chan.stderr := by
  by_cases hm : w.mallocOk c = true
  · simp only [benchmark_chunk_size, hm, if_true] at h ⊢
    exact benchLoop_ok w c (List.range 30) h
  · simp only [benchmark_chunk_size] at h
    rw [if_neg hm] at h
    exact absurd h (by simp)

theorem benchmark_ok_forall (w : World) (c : Int)
    (h : (benchmark_chunk_size w c).2 = true) :
    ∀ r ∈ List.range 30, (runOnce w c r).2 = true := by
  by_cases hm : w.mallocOk c = true
  · simp only [benchmark_chunk_size, hm, if_true] at h
    exact benchLoop_ok_forall w c (List.range 30) h
  · simp only [benchmark_chunk_size] at h
    rw [if_neg hm] at h
    exact absurd h (by simp)

theorem benchmark_ok_of (w : World) (c : Int) (hm : w.mallocOk c = true)
    (h : ∀ r ∈ List.range 30, (runOnce w c r).2 = true) :
    (benchmark_chunk_size w c).2 = true := by
  simp only [benchmark_chunk_size, hm, if_true]
  exact benchLoop_ok_of w c (List.range 30) h

theorem benchSweep_ok (w : World) :
    ∀ cs : List Int, (benchSweep w cs).2 = true →
      rowEvents (benchSweep w cs).1 =
        cs.flatMap (fun c => (List.range 30).map (mkResult w c)) ∧
      dataLines (benchSweep w cs).1 =
        cs.flatMap (fun c => (List.range 30).map (fun r => Line.row (mkResult w c r))) ∧
      ∀ e ∈ (benchSweep w cs).1, e.chan ≠ Chan.stderr := by
  intro cs
  induction cs with
  | nil =>
    intro _
    refine ⟨rfl, rfl, ?_⟩
    intro e he
    simp [benchSweep] at he
  | cons c cs ih =>
    intro h
    by_cases hc : (benchmark_chunk_size w c).2 = true
    · have hrest : (benchSweep w cs).2 = true := by
        simp only [benchSweep, hc, if_true] at h
        exact h
      obtain ⟨ih1, ih2, ih3⟩ := ih hrest
      obtain ⟨hb1, hb2, hb3⟩ := benchmark_ok w c hc
      have hev : (benchSweep w (c :: cs)).1 =
          (benchmark_chunk_size w c).1 ++ (benchSweep w cs).1 := by
        simp only [benchSweep, hc, if_true]
      refine ⟨?_, ?_, ?_⟩
      · rw [hev, rowEvents_append, ih1, hb1, List.flatMap_cons]
      · rw [hev, dataLines_append, ih2, hb2, List.flatMap_cons]
      · intro e hmem
        rw [hev] at hmem
        rcases List.mem_append.mp hmem with hm | hm
        · exact hb3 e hm
        · exact ih3 e hm
    · simp only [benchSweep] at h
      rw [if_neg hc] at h
      exact absurd h (by simp)

theorem benchSweep_ok_forall (w : World) :
    ∀ cs : List Int, (benchSweep w cs).2 = true →
      ∀ c ∈ cs, (benchmark_chunk_size w c).2 = true := by
  intro cs
  induction cs with
  | nil =>
    intro _ c hc
    cases hc
  | cons c cs ih =>
    intro h c' hc'
    by_cases hc : (benchmark_chunk_size w c).2 = true
    · have hrest : (benchSweep w cs).2 = true := by
        simp only [benchSweep, hc, if_true] at h
        exact h
      rcases List.mem_cons.mp hc' with rfl | hm
      · exact hc
      · exact ih hrest c' hm
    · simp only [benchSweep] at h
      rw [if_neg hc] at h
      exact absurd h (by simp)

theorem benchSweep_ok_of (w : World) :
    ∀ cs : List Int, (∀ c ∈ cs, (benchmark_chunk_size w c).2 = true) →
      (benchSweep w cs).2 = true := by
  intro cs
  induction cs with
  | nil => intro _; rfl
  | cons c cs ih =>
    intro h
    have hc := h c (List.mem_cons_self c cs)
    simp only [benchSweep, hc, if_true]
    exact ih (fun c' hc' => h c' (List.mem_cons_of_mem c hc'))

theorem rowEvents_nil : rowEvents [] = [] := rfl

theorem rowEvents_cons_header (c : Chan) (l : List Ev) :
    rowEvents (⟨c, Line.header⟩ :: l) = rowEvents l := by
  cases c <;> simp [rowEvents, List.filterMap_cons]

theorem rowEvents_cons_msg (c : Chan) (s : String) (l : List Ev) :
    rowEvents (⟨c, Line.msg s⟩ :: l) = rowEvents l := by
  cases c <;> simp [rowEvents, List.filterMap_cons]

theorem dataLines_nil : dataLines [] = [] := rfl

theorem dataLines_cons_stdout (x : Line) (l : List Ev) :
    dataLines (⟨Chan.stdout, x⟩ :: l) = dataLines l := by
  simp [dataLines, List.filterMap_cons]

theorem dataLines_cons_stderr (x : Line) (l : List Ev) :
    dataLines (⟨Chan.stderr, x⟩ :: l) = dataLines l := by
  simp [dataLines, List.filterMap_cons]

theorem dataLines_cons_data (x : Line) (l : List Ev) :
    dataLines (⟨Chan.dataFd, x⟩ :: l) = x :: dataLines l := by
  simp [dataLines, List.filterMap_cons]

theorem mainModel_exit_cases (w : World) :
    (mainModel w).2 = 0 ∨ (mainModel w).2 = 1 := by
  unfold mainModel
  split_ifs <;> simp

theorem mainModel_exit0 (w : World) (h : (mainModel w).2 = 0) :
    w.openResultsOk = true ∧ w.writeHeaderOk = true ∧
    (benchmark_chunk_size w SMALL_CHUNK).2 = true ∧
    (benchmark_chunk_size w MEDIUM_CHUNK).2 = true ∧
    (benchSweep w incrementalChunks).2 = true ∧
    w.closeResultsOk = true := by
  unfold mainModel at h
  split_ifs at h <;> simp_all

theorem mainModel_success_events (w : World)
    (h1 : w.openResultsOk = true) (h2 : w.writeHeaderOk = true)
    (h3 : (benchmark_chunk_size w SMALL_CHUNK).2 = true)
    (h4 : (benchmark_chunk_size w MEDIUM_CHUNK).2 = true)
    (h5 : (benchSweep w incrementalChunks).2 = true)
    (h6 : w.closeResultsOk = true) :
    mainModel w =
      (⟨Chan.dataFd, Line.header⟩ ::
        ⟨Chan.stdout, Line.msg "Starting sequential read benchmark...\n"⟩ ::
        ⟨Chan.stdout, Line.msg "Testing small reads (100 bytes)\n"⟩ ::
        (benchmark_chunk_size w SMALL_CHUNK).1 ++
        ⟨Chan.stdout, Line.msg "Testing medium reads (1K)\n"⟩ ::
        (benchmark_chunk_size w MEDIUM_CHUNK).1 ++
        ⟨Chan.stdout, Line.msg "Testing incremental reads of 8KiB starting from 8KiB up to 256KiB\n"⟩ ::
        (benchSweep w incrementalChunks).1 ++
        [⟨Chan.stdout, Line.msg "Benchmark completed. Results saved to benchmark_results.csv\n"⟩], 0) := by
  simp only [mainModel, h1, h2, h3, h4, h5, h6, if_true]

theorem mainModel_closefail_events (w : World)
    (h1 : w.openResultsOk = true) (h2 : w.writeHeaderOk = true)
    (h3 : (benchmark_chunk_size w SMALL_CHUNK).2 = true)
    (h4 : (benchmark_chunk_size w MEDIUM_CHUNK).2 = true)
    (h5 : (benchSweep w incrementalChunks).2 = true)
    (h6 : w.closeResultsOk = false) :
    mainModel w =
      (⟨Chan.dataFd, Line.header⟩ ::
        ⟨Chan.stdout, Line.msg "Starting sequential read benchmark...\n"⟩ ::
        ⟨Chan.stdout, Line.msg "Testing small reads (100 bytes)\n"⟩ ::
        (benchmark_chunk_size w SMALL_CHUNK).1 ++
        ⟨Chan.stdout, Line.msg "Testing medium reads (1K)\n"⟩ ::
        (benchmark_chunk_size w MEDIUM_CHUNK).1 ++
        ⟨Chan.stdout, Line.msg "Testing incremental reads of 8KiB starting from 8KiB up to 256KiB\n"⟩ ::
        (benchSweep w incrementalChunks).1 ++
        [⟨Chan.stdout, Line.msg "Error closing output file\n"⟩], 1) := by
  simp only [mainModel, h1, h2, h3, h4, h5, h6, if_true, Bool.false_eq_true, if_false]

theorem mainModel_rows (w : World) (h : (mainModel w).2 = 0) :
    rowEvents (mainModel w).1 =
      sweepChunks.flatMap (fun c => (List.range 30).map (mkResult w c)) := by
  obtain ⟨h1, h2, h3, h4, h5, h6⟩ := mainModel_exit0 w h
  obtain ⟨hb3, _, _⟩ := benchmark_ok w SMALL_CHUNK h3
  obtain ⟨hb4, _, _⟩ := benchmark_ok w MEDIUM_CHUNK h4
  obtain ⟨hs5, _, _⟩ := benchSweep_ok w incrementalChunks h5
  rw [mainModel_success_events w h1 h2 h3 h4 h5 h6]
  simp only [rowEvents_cons_header, rowEvents_cons_msg, rowEvents_append,
    rowEvents_nil, hb3, hb4, hs5, sweepChunks, List.flatMap_cons,
    List.append_nil, List.append_assoc]

theorem mainModel_dataLines (w : World) (h : (mainModel w).2 = 0) :
    dataLines (mainModel w).1 =
      Line.header ::
        sweepChunks.flatMap (fun c => (List.range 30).map (fun r => Line.row (mkResult w c r))) := by
  obtain ⟨h1, h2, h3, h4, h5, h6⟩ := mainModel_exit0 w h
  obtain ⟨_, hb3, _⟩ := benchmark_ok w SMALL_CHUNK h3
  obtain ⟨_, hb4, _⟩ := benchmark_ok w MEDIUM_CHUNK h4
  obtain ⟨_, hs5, _⟩ := benchSweep_ok w incrementalChunks h5
  rw [mainModel_success_events w h1 h2 h3 h4 h5 h6]
  simp only [dataLines_cons_data, dataLines_cons_stdout, dataLines_append,
    dataLines_nil, hb3, hb4, hs5, sweepChunks, List.flatMap_cons,
    List.append_nil, List.append_assoc, List.cons_append]

/-- Routing discipline of a single write: anything on the results fd is
the header or a CSV row built by line 94, and every message goes to
stdout or stderr. -/
def RoutedEv (w : World) (e : Ev) : Prop :=
  (e.chan = Chan.dataFd →
    e.line = Line.header ∨ ∃ c r, e.line = Line.row (mkResult w c r)) ∧
  (∀ s, e.line = Line.msg s → e.chan = Chan.stdout ∨ e.chan = Chan.stderr)

theorem routed_stdout_msg (w : World) (s : String) :
    RoutedEv w ⟨Chan.stdout, Line.msg s⟩ := by
  constructor
  · intro h
    cases h
  · intro s' _
    exact Or.inl rfl

theorem routed_stderr_msg (w : World) (s : String) :
    RoutedEv w ⟨Chan.stderr, Line.msg s⟩ := by
  constructor
  · intro h
    cases h
  · intro s' _
    exact Or.inr rfl

theorem routed_header (w : World) :
    RoutedEv w ⟨Chan.dataFd, Line.header⟩ := by
  constructor
  · intro _
    exact Or.inl rfl
  · intro s h
    cases h

theorem routed_row (w : World) (c : Int) (r : Nat) :
    RoutedEv w ⟨Chan.dataFd, Line.row (mkResult w c r)⟩ := by
  constructor
  · intro _
    exact Or.inr ⟨c, r, rfl⟩
  · intro s h
    cases h

theorem routed_runOnce (w : World) (c : Int) (r : Nat) :
    ∀ e ∈ (runOnce w c r).1, RoutedEv w e := by
  intro e he
  unfold runOnce write_result at he
  split_ifs at he
  all_goals
    simp only [List.mem_append, List.mem_cons, List.not_mem_nil, or_false] at he
  all_goals
    try casesm* _ ∨ _
  all_goals
    subst_vars
  all_goals
    first
      | exact routed_stdout_msg w _
      | exact routed_stderr_msg w _
      | exact routed_row w c r

theorem routed_benchLoop (w : World) (c : Int) :
    ∀ (rs : List Nat), ∀ e ∈ (benchLoop w c rs).1, RoutedEv w e := by
  intro rs
  induction rs with
  | nil =>
    intro e he
    simp [benchLoop] at he
  | cons r rs ih =>
    intro e he
    by_cases hr : (runOnce w c r).2 = true
    · simp only [benchLoop, hr, if_true] at he
      rcases List.mem_append.mp he with hm | hm
      · exact routed_runOnce w c r e hm
      · exact ih e hm
    · simp only [benchLoop] at he
      rw [if_neg hr] at he
      exact routed_runOnce w c r e he

theorem routed_benchmark (w : World) (c : Int) :
    ∀ e ∈ (benchmark_chunk_size w c).1, RoutedEv w e := by
  intro e he
  by_cases hm : w.mallocOk c = true
  · simp only [benchmark_chunk_size, hm, if_true] at he
    exact routed_benchLoop w c (List.range 30) e he
  · simp only [benchmark_chunk_size] at he
    rw [if_neg hm] at he
    rcases List.mem_singleton.mp he with rfl
    exact routed_stderr_msg w _

theorem routed_benchSweep (w : World) :
    ∀ (cs : List Int), ∀ e ∈ (benchSweep w cs).1, RoutedEv w e := by
  intro cs
  induction cs with
  | nil =>
    intro e he
    simp [benchSweep] at he
  | cons c cs ih =>
    intro e he
    by_cases hc : (benchmark_chunk_size w c).2 = true
    · simp only [benchSweep, hc, if_true] at he
      rcases List.mem_append.mp he with hm | hm
      · exact routed_benchmark w c e hm
      · exact ih e hm
    · simp only [benchSweep] at he
      rw [if_neg hc] at he
      exact routed_benchmark w c e he

theorem routed_mainModel (w : World) :
    ∀ e ∈ (mainModel w).1, RoutedEv w e := by
  intro e he
  unfold mainModel at he
  split_ifs at he
  all_goals
    simp only [List.mem_cons, List.mem_append, List.mem_singleton,
      List.not_mem_nil, or_false] at he
  all_goals
    try casesm* _ ∨ _
  all_goals
    first
      | exact routed_benchmark w SMALL_CHUNK e (by assumption)
      | exact routed_benchmark w MEDIUM_CHUNK e (by assumption)
      | exact routed_benchSweep w incrementalChunks e (by assumption)
      | (subst_vars
         first
           | exact routed_header w
           | exact routed_stdout_msg w _
           | exact routed_stderr_msg w _)

theorem readLoop_full (chunk : Int) (oracle : Nat → Int → Int) (hc : 0 < chunk)
    (hbound : ∀ k n, oracle k n ≤ n) (hpos : ∀ k n, 0 < n → 0 < oracle k n) :
    ((readLoopAux chunk oracle FUEL 0 0).getD (0, [])).1 = FILE_SIZE := by
  have hsome := readLoopAux_isSome chunk oracle FUEL 0 0 FUEL_big
  rcases Option.isSome_iff_exists.mp hsome with ⟨⟨fin, tr⟩, hp⟩
  obtain ⟨_, _, _, _, hform, hstop⟩ :=
    readLoopAux_spec chunk oracle hbound FUEL 0 0 fin tr (le_refl 0) (by decide) hp
  rw [hp]
  simp only [Option.getD_some]
  rcases hstop with hfs | ⟨cc, hcc, hcle⟩
  · exact hfs
  · obtain ⟨h1, h2⟩ := readLoopAux_trace chunk oracle FUEL 0 0 fin tr hp cc hcc
    obtain ⟨j, hj⟩ := hform cc hcc
    have hreqpos : 0 < cc.requested := h2 ▸ readReq_pos chunk cc.totalBefore hc h1
    have := hpos j cc.requested hreqpos
    omega

/-- An environment in which every call succeeds: the results file opens,
read() always delivers the full requested count, every run takes exactly
one second, and all writes and closes succeed. -/
def wAllOk : World where
  openResultsOk := true
  writeHeaderOk := true
  mallocOk := fun _ => true
  openTestOk := fun _ _ => true
  read := fun _ _ _ n => n
  closeTestOk := fun _ _ => true
  duration := fun _ _ => 1
  writeRowOk := fun _ _ => true
  closeResultsOk := true

/-- Like wAllOk, except the test file is empty: every read() reports
end-of-file (returns 0), as happens when test_file.bin is shorter than
FILE_SIZE. -/
def wShort : World :=
  { wAllOk with read := fun _ _ _ _ => 0 }

/-- Like wAllOk, except the final close() of the results file fails. -/
def wCloseFail : World :=
  { wAllOk with closeResultsOk := false }

/-- Like wAllOk, except the initial open() of the results file fails. -/
def wOpenFail : World :=
  { wAllOk with openResultsOk := false }

theorem incrementalChunks_pos : ∀ c ∈ incrementalChunks, 0 < c := by decide

theorem sweepChunks_nodup : sweepChunks.Nodup := by decide

theorem loopFin_wAllOk (c : Int) (r : Nat) (hc : 0 < c) :
    loopFin wAllOk c r = FILE_SIZE :=
  readLoop_full c (wAllOk.read c r) hc (fun _ n => le_refl n) (fun _ _ h => h)

theorem bench_wAllOk (c : Int) (hc : 0 < c) :
    (benchmark_chunk_size wAllOk c).2 = true :=
  benchmark_ok_of wAllOk c rfl
    (fun r _ => runOnce_ok_of wAllOk c r rfl rfl (loopFin_wAllOk c r hc) rfl)

theorem sweep_wAllOk : (benchSweep wAllOk incrementalChunks).2 = true :=
  benchSweep_ok_of wAllOk incrementalChunks
    (fun c hcm => bench_wAllOk c (incrementalChunks_pos c hcm))

theorem mainModel_wAllOk_exit : (mainModel wAllOk).2 = 0 := by
  have h3 : (benchmark_chunk_size wAllOk SMALL_CHUNK).2 = true :=
    bench_wAllOk SMALL_CHUNK (by decide)
  have h4 : (benchmark_chunk_size wAllOk MEDIUM_CHUNK).2 = true :=
    bench_wAllOk MEDIUM_CHUNK (by decide)
  rw [mainModel_success_events wAllOk rfl rfl h3 h4 sweep_wAllOk rfl]

theorem loopFin_wCloseFail (c : Int) (r : Nat) (hc : 0 < c) :
    loopFin wCloseFail c r = FILE_SIZE :=
  readLoop_full c (wCloseFail.read c r) hc (fun _ n => le_refl n) (fun _ _ h => h)

theorem bench_wCloseFail (c : Int) (hc : 0 < c) :
    (benchmark_chunk_size wCloseFail c).2 = true :=
  benchmark_ok_of wCloseFail c rfl
    (fun r _ => runOnce_ok_of wCloseFail c r rfl rfl (loopFin_wCloseFail c r hc) rfl)

theorem sweep_wCloseFail : (benchSweep wCloseFail incrementalChunks).2 = true :=
  benchSweep_ok_of wCloseFail incrementalChunks
    (fun c hcm => bench_wCloseFail c (incrementalChunks_pos c hcm))

theorem filter_flatMap (l : List Int) (f : Int → List BenchmarkResult)
    (p : BenchmarkResult → Bool) :
    (l.flatMap f).filter p = l.flatMap (fun a => (f a).filter p) := by
  induction l with
  | nil => simp
  | cons a t ih => simp [List.filter_append, ih]

theorem flatMap_nil_of (l : List Int) (g : Int → List BenchmarkResult)
    (h : ∀ x ∈ l, g x = []) : l.flatMap g = [] := by
  induction l with
  | nil => simp
  | cons a t ih =>
    simp [h a (List.mem_cons_self a t), ih (fun x hx => h x (List.mem_cons_of_mem a hx))]

theorem flatMap_congr_mem (l : List Int) (f g : Int → List BenchmarkResult)
    (h : ∀ a ∈ l, f a = g a) : l.flatMap f = l.flatMap g := by
  induction l with
  | nil => simp
  | cons a t ih =>
    simp [h a (List.mem_cons_self a t), ih (fun x hx => h x (List.mem_cons_of_mem a hx))]

theorem flatMap_if_single (c : Int) :
    ∀ (l : List Int), l.Nodup → c ∈ l → ∀ (f : Int → List BenchmarkResult),
      (l.flatMap (fun a => if a = c then f a else [])) = f c := by
  intro l
  induction l with
  | nil =>
    intro _ h
    cases h
  | cons a t ih =>
    intro hnd hmem f
    rcases List.nodup_cons.mp hnd with ⟨hna, hndt⟩
    by_cases hac : a = c
    · subst hac
      have hrest : t.flatMap (fun x => if x = a then f x else []) = [] := by
        apply flatMap_nil_of
        intro x hx
        have hxa : x ≠ a := fun he => hna (he ▸ hx)
        exact if_neg hxa
      rw [List.flatMap_cons, if_pos rfl, hrest, List.append_nil]
    · rcases List.mem_cons.mp hmem with h | h
      · exact absurd h.symm hac
      · rw [List.flatMap_cons, if_neg hac, List.nil_append]
        exact ih hndt h f

theorem block_filter (w : World) (c a : Int) :
    ((List.range 30).map (mkResult w a)).filter (fun b => b.chunk_size = c) =
      if a = c then (List.range 30).map (mkResult w a) else [] := by
  by_cases h : a = c
  · subst h
    rw [if_pos rfl]
    apply List.filter_eq_self.mpr
    intro b hb
    rcases List.mem_map.mp hb with ⟨r, _, rfl⟩
    simp [mkResult]
  · rw [if_neg h]
    apply List.filter_eq_nil_iff.mpr
    intro b hb
    rcases List.mem_map.mp hb with ⟨r, _, rfl⟩
    simp [mkResult, h]

/-- C2: for every chunk size c of the configured sweep (all of which
satisfy 0 < c ≤ FILE_SIZE), a run of main that exits 0 emits exactly 30
CSV rows with chunk_size = c, and their run_number fields are 1, 2, ...,
30 in order (so run_number restarts at 1 in each chunk-size group). -/
theorem c2_rows_per_chunk (w : World) (c : Int)
    (h0 : (mainModel w).2 = 0) (hmem : c ∈ sweepChunks)
    (hpos : 0 < c) (hle : c ≤ FILE_SIZE) :
    ((rowEvents (mainModel w).1).filter (fun b => b.chunk_size = c)).length = 30 ∧
    ((rowEvents (mainModel w).1).filter (fun b => b.chunk_size = c)).map
        (fun b => b.run_number) = (List.range 30).map (fun i => (i : Int) + 1) := by
  have hrows := mainModel_rows w h0
  have hfilter : (rowEvents (mainModel w).1).filter (fun b => b.chunk_size = c) =
      (List.range 30).map (mkResult w c) := by
    rw [hrows, filter_flatMap,
      flatMap_congr_mem sweepChunks _ _ (fun a _ => block_filter w c a),
      flatMap_if_single c sweepChunks sweepChunks_nodup hmem]
  refine ⟨?_, ?_⟩
  · rw [hfilter]
    simp
  · rw [hfilter, List.map_map]
    rfl

/-- C3: if a run's read loop ends with total_read different from
FILE_SIZE (for instance because the test file is shorter), the run fails
(the process exits with status 1), no CSV row is written for that run,
no further rows are produced for the in-progress chunk size, and main's
exit code is 1 whenever that chunk size belongs to the sweep. -/
theorem c3_incomplete_read_aborts (w : World) (c : Int) (r : Nat) (rest : List Nat)
    (hopen : w.openTestOk c r = true) (hclose : w.closeTestOk c r = true)
    (hfin : loopFin w c r ≠ FILE_SIZE) (hr : r < 30) :
    (runOnce w c r).2 = false ∧
    rowEvents (runOnce w c r).1 = [] ∧
    (benchLoop w c (r :: rest)).2 = false ∧
    rowEvents (benchLoop w c (r :: rest)).1 = [] ∧
    (c ∈ sweepChunks → (mainModel w).2 = 1) := by
  have h1 : (runOnce w c r).2 = false := by
    simp [runOnce, hopen, hclose, hfin]
  have h2 : rowEvents (runOnce w c r).1 = [] := by
    simp [runOnce, hopen, hclose, hfin, rowEvents, List.filterMap_cons]
  have h3 : (benchLoop w c (r :: rest)).2 = false := by
    simp [benchLoop, h1]
  have h4 : rowEvents (benchLoop w c (r :: rest)).1 = [] := by
    simp [benchLoop, h1, h2]
  refine ⟨h1, h2, h3, h4, ?_⟩
  intro hmem
  rcases mainModel_exit_cases w with h0 | h0
  · exfalso
    obtain ⟨_, _, hb1, hb2, hs, _⟩ := mainModel_exit0 w h0
    have hbc : (benchmark_chunk_size w c).2 = true := by
      rcases List.mem_cons.mp hmem with rfl | hmem2
      · exact hb1
      · rcases List.mem_cons.mp hmem2 with rfl | hmem3
        · exact hb2
        · exact benchSweep_ok_forall w incrementalChunks hs c hmem3
    have hok := benchmark_ok_forall w c hbc r (List.mem_range.mpr hr)
    rw [h1] at hok
    exact absurd hok (by simp)
  · exact h0

theorem c3_incomplete_read_aborts_witness :
    (wShort.openTestOk SMALL_CHUNK 0 = true) ∧
    (wShort.closeTestOk SMALL_CHUNK 0 = true) ∧
    (loopFin wShort SMALL_CHUNK 0 ≠ FILE_SIZE) ∧ ((0 : Nat) < 30) ∧
    ((runOnce wShort SMALL_CHUNK 0).2 = false ∧
     rowEvents (runOnce wShort SMALL_CHUNK 0).1 = [] ∧
     (benchLoop wShort SMALL_CHUNK ((0 : Nat) :: [])).2 = false ∧
     rowEvents (benchLoop wShort SMALL_CHUNK ((0 : Nat) :: [])).1 = [] ∧
     (SMALL_CHUNK ∈ sweepChunks → (mainModel wShort).2 = 1)) :=
  ⟨rfl, rfl, by decide, by decide,
    c3_incomplete_read_aborts wShort SMALL_CHUNK 0 [] rfl rfl (by decide) (by decide)⟩

/-- C4: for the metric computation of lines 90-91 (doubles modelled as
exact rationals), throughput_mbps * read_time_ms equals
(FILE_SIZE / 1048576) * 1000 whenever the measured duration is nonzero:
an algebraic identity of the formula, independent of the duration. -/
theorem c4_throughput_identity (w : World) (c : Int) (r : Nat)
    (ht : w.duration c r ≠ 0) :
    (mkResult w c r).throughput_mbps * (mkResult w c r).read_time_ms =
      (FILE_SIZE : ℚ) / 1048576 * 1000 := by
  simp only [mkResult, read_time_ms, throughput_mbps]
  field_simp
  ring

theorem c4_throughput_identity_witness :
    (wAllOk.duration SMALL_CHUNK 0 ≠ 0) ∧
    ((mkResult wAllOk SMALL_CHUNK 0).throughput_mbps *
        (mkResult wAllOk SMALL_CHUNK 0).read_time_ms =
      (FILE_SIZE : ℚ) / 1048576 * 1000) :=
  ⟨by norm_num [wAllOk], c4_throughput_identity wAllOk SMALL_CHUNK 0 (by norm_num [wAllOk])⟩

/-- One invocation of the tool against a file system in which
benchmark_results.csv currently holds fs: if the open(O_WRONLY, O_CREAT,
O_TRUNC) of line 103 succeeds the file is truncated and ends up holding
exactly what the process wrote to data_fd; if the open fails the file is
untouched and the process exits 1. -/
def runTool (w : World) (fs : List Line) : List Line × Int :=
  if w.openResultsOk then (dataLines (mainModel w).1, (mainModel w).2)
  else (fs, 1)

theorem map_row_flatMap (w : World) (l : List Int) :
    (l.flatMap (fun c => (List.range 30).map (mkResult w c))).map Line.row =
      l.flatMap (fun c => (List.range 30).map (fun r => Line.row (mkResult w c r))) := by
  induction l with
  | nil => simp
  | cons a t ih =>
    simp only [List.flatMap_cons, List.map_append, ih, List.map_map]
    rfl

/-- C5: the results file is opened once in truncate-create mode, so the
contents after a run are independent of whatever the file held before
(running the tool twice leaves only the second run's output), and on a
successful run the contents are exactly one header line followed by the
emitted CSV rows in order. -/
theorem c5_truncate_overwrite (w1 w2 : World) (fs1 fs2 : List Line)
    (h : w2.openResultsOk = true) :
    runTool w2 (runTool w1 fs1).1 = runTool w2 fs2 ∧
    ((mainModel w2).2 = 0 →
      dataLines (mainModel w2).1 =
        Line.header :: (rowEvents (mainModel w2).1).map Line.row) := by
  constructor
  · simp [runTool, h]
  · intro h0
    rw [mainModel_dataLines w2 h0, mainModel_rows w2 h0, map_row_flatMap]

theorem c5_truncate_overwrite_witness :
    (wAllOk.openResultsOk = true) ∧
    (runTool wAllOk (runTool wShort []).1 = runTool wAllOk [] ∧
     ((mainModel wAllOk).2 = 0 →
       dataLines (mainModel wAllOk).1 =
         Line.header :: (rowEvents (mainModel wAllOk).1).map Line.row)) :=
  ⟨rfl, c5_truncate_overwrite wShort wAllOk [] [] rfl⟩

theorem mem_closefail_shape (a m1 m2 m3 m4 m5 : Ev) (b1 b2 b3 : List Ev) :
    a ∈ m1 :: m2 :: m3 :: b1 ++ m4 :: b2 ++ m5 :: b3 ++ [a] := by
  simp

theorem closefail_shape_cases (e m1 m2 m3 m4 m5 last : Ev) (b1 b2 b3 : List Ev)
    (h : e ∈ m1 :: m2 :: m3 :: b1 ++ m4 :: b2 ++ m5 :: b3 ++ [last]) :
    e = m1 ∨ e = m2 ∨ e = m3 ∨ e ∈ b1 ∨ e = m4 ∨ e ∈ b2 ∨ e = m5 ∨
      e ∈ b3 ∨ e = last := by
  simp only [List.mem_cons, List.mem_append, List.mem_singleton,
    List.not_mem_nil, or_false] at h
  tauto

/-- C6: evaluation of the model at the failing input for the close-failure
code bug. In an environment where everything succeeds except the final
close() of benchmark_results.csv (line 138), the process exits 1 but its
diagnostic "Error closing output file" is written to standard output
(line 139 uses std::cout), and nothing at all is written to standard
error, contradicting the specified policy that every fatal error writes
its diagnostic to the error stream. -/
theorem c6_close_failure_diag_on_stdout :
    (mainModel wCloseFail).2 = 1 ∧
    (⟨Chan.stdout, Line.msg "Error closing output file\n"⟩ : Ev) ∈
      (mainModel wCloseFail).1 ∧
    ∀ s : String,
      (⟨Chan.stderr, Line.msg s⟩ : Ev) ∉ (mainModel wCloseFail).1 := by
  have h3 : (benchmark_chunk_size wCloseFail SMALL_CHUNK).2 = true :=
    bench_wCloseFail SMALL_CHUNK (by decide)
  have h4 : (benchmark_chunk_size wCloseFail MEDIUM_CHUNK).2 = true :=
    bench_wCloseFail MEDIUM_CHUNK (by decide)
  have heq := mainModel_closefail_events wCloseFail rfl rfl h3 h4 sweep_wCloseFail rfl
  refine ⟨by rw [heq], ?_, ?_⟩
  · rw [heq]
    exact mem_closefail_shape _ _ _ _ _ _ _ _ _
  · intro s hmem
    rw [heq] at hmem
    have hcases := closefail_shape_cases _ _ _ _ _ _ _ _ _ _ hmem
    clear hmem heq
    rcases hcases with h | h | h | h | h | h | h | h | h
    · simp at h
    · simp at h
    · simp at h
    · exact absurd rfl ((benchmark_ok wCloseFail SMALL_CHUNK h3).2.2 _ h)
    · simp at h
    · exact absurd rfl ((benchmark_ok wCloseFail MEDIUM_CHUNK h4).2.2 _ h)
    · simp at h
    · exact absurd rfl ((benchSweep_ok wCloseFail incrementalChunks sweep_wCloseFail).2.2 _ h)
    · simp at h

theorem c2_rows_per_chunk_witness :
    ((mainModel wAllOk).2 = 0) ∧ (SMALL_CHUNK ∈ sweepChunks) ∧
    (0 < SMALL_CHUNK) ∧ (SMALL_CHUNK ≤ FILE_SIZE) ∧
    (((rowEvents (mainModel wAllOk).1).filter
        (fun b => b.chunk_size = SMALL_CHUNK)).length = 30 ∧
     ((rowEvents (mainModel wAllOk).1).filter
        (fun b => b.chunk_size = SMALL_CHUNK)).map (fun b => b.run_number) =
       (List.range 30).map (fun i => (i : Int) + 1)) :=
  ⟨mainModel_wAllOk_exit, by decide, by decide, by decide,
    c2_rows_per_chunk wAllOk SMALL_CHUNK mainModel_wAllOk_exit
      (by decide) (by decide) (by decide)⟩

/-- C9: every event the process emits obeys the routing discipline: a
write to the results fd is the CSV header or a CSV row built by
write_result from line 94's BenchmarkResult, and every progress or
diagnostic message goes to stdout or stderr, never into
benchmark_results.csv. -/
theorem c9_output_routing (w : World) (e : Ev) (he : e ∈ (mainModel w).1) :
    (e.chan = Chan.dataFd →
      e.line = Line.header ∨ ∃ c r, e.line = Line.row (mkResult w c r)) ∧
    (∀ s, e.line = Line.msg s → e.chan = Chan.stdout ∨ e.chan = Chan.stderr) :=
  routed_mainModel w e he

theorem c9_output_routing_witness :
    ((⟨Chan.stderr, Line.msg "Could not open output file"⟩ : Ev) ∈
      (mainModel wOpenFail).1) ∧
    (((⟨Chan.stderr, Line.msg "Could not open output file"⟩ : Ev).chan = Chan.dataFd →
      (⟨Chan.stderr, Line.msg "Could not open output file"⟩ : Ev).line = Line.header ∨
        ∃ c r, (⟨Chan.stderr, Line.msg "Could not open output file"⟩ : Ev).line =
          Line.row (mkResult wOpenFail c r)) ∧
     (∀ s, (⟨Chan.stderr, Line.msg "Could not open output file"⟩ : Ev).line = Line.msg s →
       (⟨Chan.stderr, Line.msg "Could not open output file"⟩ : Ev).chan = Chan.stdout ∨
       (⟨Chan.stderr, Line.msg "Could not open output file"⟩ : Ev).chan = Chan.stderr)) := by
  have hmem : (⟨Chan.stderr, Line.msg "Could not open output file"⟩ : Ev) ∈
      (mainModel wOpenFail).1 := by decide
  exact ⟨hmem, c9_output_routing wOpenFail _ hmem⟩

/-- The three distinct clock types of std::chrono that the program could
have sampled. -/
inductive ChronoClock
  | system_clock
  | steady_clock
  | high_resolution_clock
deriving DecidableEq, Repr

/-- Modelled from the C++ standard and the platform's standard library
(libstdc++ on Linux, the repository's target): is_steady holds only for
steady_clock. system_clock is adjustable wall-clock time, and libstdc++
defines high_resolution_clock as an alias of system_clock, so neither is
steady; a duration measured with a non-steady clock can be corrupted (or
negative) when the wall clock is adjusted between the two samples. -/
def ChronoClock.is_steady : ChronoClock → Bool
  | ChronoClock.system_clock => false
  | ChronoClock.steady_clock => true
  | ChronoClock.high_resolution_clock => false

/-- The clock sampled on lines 57 and 72 of the source:
std::chrono::high_resolution_clock::now(). -/
def benchmarkClock : ChronoClock := ChronoClock.high_resolution_clock

/-- C7, code-bug exhibit: the per-run timestamps are taken from
high_resolution_clock, which is not the steady (monotonic) clock - on the
target standard library it is an alias of the adjustable system_clock -
so the claim that a monotonic clock protects read_time_ms from wall-clock
adjustments does not hold of the code as written. -/
theorem c7_clock_not_monotonic :
    benchmarkClock = ChronoClock.high_resolution_clock ∧
    benchmarkClock.is_steady = false ∧
    benchmarkClock ≠ ChronoClock.steady_clock := by decide
